import Mathlib

/-!
Shallow embedding of `send.py`, a Morse-code transmitter that toggles a GPIO
pin.  Side effects (GPIO calls, `time.sleep`, `print`) are modelled as an
event trace (`List Ev`).  All timing constants in the source are integer
multiples of the base dot duration `DOT` (0.1 s in the source); the embedding
keeps the base unit as a parameter `u : ℚ` so that the timing ratios can be
stated for any configured unit.
-/

namespace MorseSend

/-- Observable events of the program: GPIO driver calls, sleeps (with their
duration), and printed output. -/
inductive Ev where
  | gpioSetmode : Ev
  | gpioSetwarnings : Ev
  | gpioSetupPin : Ev
  | gpioOutput : Bool → Ev
  | gpioCleanup : Ev
  | sleep : ℚ → Ev
  | printed : String → Ev
  deriving DecidableEq

/-- Source: `DOT = 0.1` (the base unit, kept as the parameter `u`). -/
def DOT (u : ℚ) : ℚ := u

/-- Source: `DASH = DOT * 3`. -/
def DASH (u : ℚ) : ℚ := DOT u * 3

/-- Source: `SYMBOL_SPACE = DOT`. -/
def SYMBOL_SPACE (u : ℚ) : ℚ := DOT u

/-- Source: `LETTER_SPACE = DOT * 3`. -/
def LETTER_SPACE (u : ℚ) : ℚ := DOT u * 3

/-- Source: `WORD_SPACE = DOT * 7`. -/
def WORD_SPACE (u : ℚ) : ℚ := DOT u * 7

/-- The `MORSE_CODE` dictionary of the source, as an association list. -/
def MORSE_CODE : List (Char × String) := [
  ('A', ".-"),    ('B', "-..."),  ('C', "-.-."),  ('D', "-.."),   ('E', "."),
  ('F', "..-."),  ('G', "--."),   ('H', "...."),  ('I', ".."),    ('J', ".---"),
  ('K', "-.-"),   ('L', ".-.."),  ('M', "--"),    ('N', "-."),    ('O', "---"),
  ('P', ".--."),  ('Q', "--.-"),  ('R', ".-."),   ('S', "..."),   ('T', "-"),
  ('U', "..-"),   ('V', "...-"),  ('W', ".--"),   ('X', "-..-"),  ('Y', "-.--"),
  ('Z', "--.."),
  ('0', "-----"), ('1', ".----"), ('2', "..---"), ('3', "...--"), ('4', "....-"),
  ('5', "....."), ('6', "-...."), ('7', "--..."), ('8', "---.."), ('9', "----."),
  (' ', "/")]

/-- Dictionary lookup `MORSE_CODE[char]` / `char not in MORSE_CODE`. -/
def lookupMorse (c : Char) : Option String :=
  (MORSE_CODE.find? (fun p => p.1 == c)).map (fun p => p.2)

/-- Source `setup_gpio`: set mode, disable warnings, configure the pin as
output, and drive it low. -/
def setup_gpio : List Ev :=
  [.gpioSetmode, .gpioSetwarnings, .gpioSetupPin, .gpioOutput false]

/-- Source `cleanup_gpio`: drive the pin low, then release the GPIO. -/
def cleanup_gpio : List Ev :=
  [.gpioOutput false, .gpioCleanup]

/-- Source `send_dot`: high, sleep `DOT`, low, sleep `SYMBOL_SPACE`. -/
def send_dot (u : ℚ) : List Ev :=
  [.gpioOutput true, .sleep (DOT u), .gpioOutput false, .sleep (SYMBOL_SPACE u)]

/-- Source `send_dash`: high, sleep `DASH`, low, sleep `SYMBOL_SPACE`. -/
def send_dash (u : ℚ) : List Ev :=
  [.gpioOutput true, .sleep (DASH u), .gpioOutput false, .sleep (SYMBOL_SPACE u)]

/-- One iteration of the symbol loop body in `send_character`:
`if symbol == '.'` send a dot, `elif symbol == '-'` send a dash, else
nothing. -/
def send_symbol (u : ℚ) (s : Char) : List Ev :=
  if s = '.' then send_dot u else if s = '-' then send_dash u else []

/-- Source `send_character`: uppercase the character; a space sleeps
`WORD_SPACE - LETTER_SPACE` and returns; a character absent from
`MORSE_CODE` is skipped; otherwise the Morse string is printed, each symbol
is sent, and `LETTER_SPACE - SYMBOL_SPACE` of extra silence follows.
Here `char.upper()` is rendered by `Char.toUpper`, the ASCII restriction of
the Unicode mapping `str.upper()` applies; the two agree on every ASCII
character.  `send_character_py` below renders the full mapping. -/
def send_character (u : ℚ) (c : Char) : List Ev :=
  let char := c.toUpper
  if char = ' ' then
    [.sleep (WORD_SPACE u - LETTER_SPACE u)]
  else
    match lookupMorse char with
    | none => []
    | some morse =>
        .printed morse ::
          (morse.data.flatMap (send_symbol u) ++
            [.sleep (LETTER_SPACE u - SYMBOL_SPACE u)])

/-- CPython `str.upper()` on a single character, as far as `send_character`
can observe it.  The Unicode case conversion maps `a`–`z` up by 32 and also
maps `ı` (U+0131, dotless i) to `I` and `ſ` (U+017F, long s) to `S`; these
two are the only code points outside `a`–`z` whose uppercase lands in the
`MORSE_CODE` key set (no case mapping produces a space or a digit).  Every
other code point is modelled by the identity, which is branch-for-branch
equivalent in `send_character` even where the true mapping changes the
character (for example `à` to `À`: both are outside the table, and a
multi-character expansion such as U+FB05 to `ST` is not a table key
either). -/
def py_upper (c : Char) : Char :=
  if c.toNat ≥ 97 ∧ c.toNat ≤ 122 then Char.ofNat (c.toNat - 32)
  else if c = 'ı' then 'I'
  else if c = 'ſ' then 'S'
  else c

/-- Source `send_character` with `char.upper()` rendered by `py_upper`
instead of the ASCII-only `Char.toUpper`: exact for every code point. -/
def send_character_py (u : ℚ) (c : Char) : List Ev :=
  let char := py_upper c
  if char = ' ' then
    [.sleep (WORD_SPACE u - LETTER_SPACE u)]
  else
    match lookupMorse char with
    | none => []
    | some morse =>
        .printed morse ::
          (morse.data.flatMap (send_symbol u) ++
            [.sleep (LETTER_SPACE u - SYMBOL_SPACE u)])

/-- Source `send_message`: send every character, then print a newline. -/
def send_message (u : ℚ) (msg : String) : List Ev :=
  msg.data.flatMap (send_character u) ++ [.printed "\n"]

/-- Result of a whole program run: the process exit code and the event
trace. -/
structure RunOutcome where
  exitCode : Nat
  trace : List Ev
  deriving DecidableEq

/-- The two status lines `main` prints before the try block. -/
def headerPrints (repetitions : Int) (message : String) : List Ev :=
  [.printed ("Sending message \x27" ++ message ++ "\x27 " ++
      toString repetitions ++ " time(s)"),
   .printed "Morse code pattern:"]

/-- The try block of `main`: GPIO setup, `repetitions` passes of
`send_message`, then the completion line. -/
def tryBody (u : ℚ) (repetitions : Int) (message : String) : List Ev :=
  setup_gpio ++
    (List.range repetitions.toNat).flatMap (fun _ => send_message u message) ++
    [.printed "Transmission complete!"]

/-- Source `main` after both command-line arguments parsed (`repetitions`
as an integer, `message` as a string), when no interrupt occurs: the range
check rejects `repetitions < 1` with exit code 1 before any GPIO call;
otherwise the headers are printed, the try block runs to completion, and the
finally block runs `cleanup_gpio`. -/
def run (u : ℚ) (repetitions : Int) (message : String) : RunOutcome :=
  if repetitions < 1 then
    { exitCode := 1,
      trace := [.printed "Error: Number of repetitions must be at least 1"] }
  else
    { exitCode := 0,
      trace := headerPrints repetitions message ++
        tryBody u repetitions message ++ cleanup_gpio }

/-- Source `main` when a `KeyboardInterrupt` arrives inside the try block
after `k` of its events have been performed: the remaining try-block events
are abandoned, the except branch prints the interruption notice, the finally
branch still runs `cleanup_gpio`, and the process exits normally (implicit
code 0). -/
def run_interrupted (u : ℚ) (repetitions : Int) (message : String)
    (k : Nat) : RunOutcome :=
  if repetitions < 1 then
    { exitCode := 1,
      trace := [.printed "Error: Number of repetitions must be at least 1"] }
  else
    { exitCode := 0,
      trace := headerPrints repetitions message ++
        (tryBody u repetitions message).take k ++
        [.printed "\nTransmission interrupted by user"] ++ cleanup_gpio }

/-- Does the event change the GPIO line level? -/
def isOutput : Ev → Bool
  | .gpioOutput _ => true
  | _ => false

/-- Is the event any GPIO driver call at all? -/
def isGpio : Ev → Bool
  | .gpioSetmode => true
  | .gpioSetwarnings => true
  | .gpioSetupPin => true
  | .gpioOutput _ => true
  | .gpioCleanup => true
  | _ => false

/-- Does the event start a pulse (drive the line high)? -/
def isPulseStart : Ev → Bool
  | .gpioOutput true => true
  | _ => false

/-- Does the event deassert the line (drive it low)? -/
def isDeassert : Ev → Bool
  | .gpioOutput false => true
  | _ => false

/-- Is the event a print? -/
def isPrint : Ev → Bool
  | .printed _ => true
  | _ => false

/-- Total sleep time strictly before the first line-level change in the
trace. -/
def silenceTo : List Ev → ℚ
  | [] => 0
  | .gpioOutput _ :: _ => 0
  | .sleep d :: tr => d + silenceTo tr
  | _ :: tr => silenceTo tr

/-- Silence from the start of the trace to its first pulse edge. -/
def leadingSilence (tr : List Ev) : ℚ := silenceTo tr

/-- Silence from the last pulse edge of the trace to its end. -/
def trailingSilence (tr : List Ev) : ℚ := silenceTo tr.reverse

/-- Number of pulses (line-high events) in a trace. -/
def pulseCount (tr : List Ev) : Nat := tr.countP isPulseStart

/-- Line level after executing a trace from the given initial level. -/
def lineAfter (init : Bool) (tr : List Ev) : Bool :=
  tr.foldl (fun s e => match e with | .gpioOutput b => b | _ => s) init

/-- Total time the line is held high while executing a trace from the given
initial level. -/
def highTime : Bool → List Ev → ℚ
  | _, [] => 0
  | _, .gpioOutput b :: tr => highTime b tr
  | s, .sleep d :: tr => (if s then d else 0) + highTime s tr
  | s, _ :: tr => highTime s tr

/-- The printed strings of a trace, in order. -/
def printedTokens : List Ev → List String
  | [] => []
  | .printed s :: tr => s :: printedTokens tr
  | _ :: tr => printedTokens tr

/-- Membership of the claim's supported character set
(A–Z, a–z, 0–9, space). -/
def supportedChar (c : Char) : Bool :=
  (65 ≤ c.toNat && c.toNat ≤ 90) || (97 ≤ c.toNat && c.toNat ≤ 122) ||
    (48 ≤ c.toNat && c.toNat ≤ 57) || (c.toNat == 32)

/-- Does the string consist only of the symbols `.` and `-`? -/
def dotDashOnly (m : String) : Bool :=
  m.data.all (fun s => s == '.' || s == '-')


/-- Is the event either a non-print event or a print of a pure dot/dash
string (in particular not the `/` placeholder)? -/
def goodPrint : Ev → Bool
  | .printed s => !(s == "/") && s.data.all (fun ch => ch == '.' || ch == '-')
  | _ => true

/-! Helper lemmas about the Morse table and the trace analysers. -/

lemma morse_table_good :
    MORSE_CODE.all
      (fun p => p.1 == ' ' || (!p.2.data.isEmpty && dotDashOnly p.2)) = true := by
  rfl

lemma morse_table_keys_supported :
    MORSE_CODE.all (fun p => supportedChar p.1) = true := by
  rfl

lemma lookupMorse_mem {c : Char} {m : String} (h : lookupMorse c = some m) :
    (c, m) ∈ MORSE_CODE := by
  unfold lookupMorse at h
  cases hf : MORSE_CODE.find? (fun p => p.1 == c) with
  | none => rw [hf] at h; simp at h
  | some p =>
    rw [hf] at h
    simp only [Option.map] at h
    have hp := List.find?_some hf
    have hmem : p ∈ MORSE_CODE := List.mem_of_find?_eq_some hf
    have h1 : p.1 = c := by simpa using hp
    cases p with
    | mk a b => cases h; cases h1; exact hmem

lemma good_of_mem {c : Char} {m : String}
    (hmem : (c, m) ∈ MORSE_CODE) (hc : c ≠ ' ') :
    m.data ≠ [] ∧ ∀ s ∈ m.data, s = '.' ∨ s = '-' := by
  have hall := List.all_eq_true.mp morse_table_good _ hmem
  simp only [beq_iff_eq] at hall
  rcases Bool.or_eq_true_iff.mp hall with h | h
  · exact absurd (by simpa using h) hc
  · rcases Bool.and_eq_true_iff.mp h with ⟨h1, h2⟩
    constructor
    · intro hd
      rw [show m.data.isEmpty = true by simp [hd]] at h1
      simp at h1
    · intro s hs
      have := List.all_eq_true.mp h2 s hs
      rcases Bool.or_eq_true_iff.mp this with h | h
      · exact Or.inl (by simpa using h)
      · exact Or.inr (by simpa using h)

lemma send_character_of_space (u : ℚ) (c : Char) (h : c.toUpper = ' ') :
    send_character u c = [.sleep (WORD_SPACE u - LETTER_SPACE u)] := by
  simp only [send_character, h, if_pos]

lemma send_character_of_none (u : ℚ) (c : Char)
    (h1 : c.toUpper ≠ ' ') (h2 : lookupMorse c.toUpper = none) :
    send_character u c = [] := by
  simp only [send_character, if_neg h1, h2]

lemma send_character_of_some (u : ℚ) (c : Char) (m : String)
    (h1 : c.toUpper ≠ ' ') (h2 : lookupMorse c.toUpper = some m) :
    send_character u c =
      .printed m ::
        (m.data.flatMap (send_symbol u) ++
          [.sleep (LETTER_SPACE u - SYMBOL_SPACE u)]) := by
  simp only [send_character, if_neg h1, h2]

lemma silenceTo_append_of_output (A B : List Ev)
    (h : A.any isOutput = true) :
    silenceTo (A ++ B) = silenceTo A := by
  induction A with
  | nil => simp at h
  | cons e tr ih =>
    cases e with
    | gpioOutput b => simp [silenceTo]
    | sleep d =>
      simp only [List.any_cons, isOutput, Bool.false_or] at h
      simp [silenceTo, ih h]
    | gpioSetmode =>
      simp only [List.any_cons, isOutput, Bool.false_or] at h
      simp [silenceTo, ih h]
    | gpioSetwarnings =>
      simp only [List.any_cons, isOutput, Bool.false_or] at h
      simp [silenceTo, ih h]
    | gpioSetupPin =>
      simp only [List.any_cons, isOutput, Bool.false_or] at h
      simp [silenceTo, ih h]
    | gpioCleanup =>
      simp only [List.any_cons, isOutput, Bool.false_or] at h
      simp [silenceTo, ih h]
    | printed s =>
      simp only [List.any_cons, isOutput, Bool.false_or] at h
      simp [silenceTo, ih h]

lemma silenceTo_symbols_reverse (u : ℚ) (l : List Char) (hne : l ≠ [])
    (hdd : ∀ s ∈ l, s = '.' ∨ s = '-') (B : List Ev) :
    silenceTo ((l.flatMap (send_symbol u)).reverse ++ B) = SYMBOL_SPACE u := by
  induction l generalizing B with
  | nil => exact absurd rfl hne
  | cons s rest ih =>
    cases hrest : rest with
    | nil =>
      subst hrest
      rcases hdd s (by simp) with h | h <;> subst h <;>
        simp [send_symbol, send_dot, send_dash, silenceTo, SYMBOL_SPACE]
    | cons a as =>
      subst hrest
      rw [List.flatMap_cons, List.reverse_append, List.append_assoc]
      exact ih (by simp) (fun x hx => hdd x (List.mem_cons_of_mem s hx)) _

lemma silenceTo_symbols_head (u : ℚ) (s : Char) (rest : List Char)
    (hs : s = '.' ∨ s = '-') (B : List Ev) :
    silenceTo ((s :: rest).flatMap (send_symbol u) ++ B) = 0 := by
  rcases hs with h | h <;> subst h <;>
    simp [send_symbol, send_dot, send_dash, silenceTo]

lemma trailingSilence_send_character (u : ℚ) (c : Char) (m : String)
    (h1 : c.toUpper ≠ ' ') (h2 : lookupMorse c.toUpper = some m) :
    trailingSilence (send_character u c) = LETTER_SPACE u := by
  obtain ⟨hne, hdd⟩ := good_of_mem (lookupMorse_mem h2) h1
  rw [send_character_of_some u c m h1 h2]
  unfold trailingSilence
  have hrw : (Ev.printed m ::
      (m.data.flatMap (send_symbol u) ++
        [Ev.sleep (LETTER_SPACE u - SYMBOL_SPACE u)])).reverse
      = Ev.sleep (LETTER_SPACE u - SYMBOL_SPACE u) ::
          ((m.data.flatMap (send_symbol u)).reverse ++ [Ev.printed m]) := by
    simp
  rw [hrw]
  have hstep : silenceTo (Ev.sleep (LETTER_SPACE u - SYMBOL_SPACE u) ::
      ((m.data.flatMap (send_symbol u)).reverse ++ [Ev.printed m]))
      = LETTER_SPACE u - SYMBOL_SPACE u +
        silenceTo ((m.data.flatMap (send_symbol u)).reverse ++ [Ev.printed m]) := rfl
  rw [hstep, silenceTo_symbols_reverse u m.data hne hdd]
  unfold LETTER_SPACE SYMBOL_SPACE DOT
  ring

lemma leadingSilence_send_character (u : ℚ) (c : Char) (m : String)
    (h1 : c.toUpper ≠ ' ') (h2 : lookupMorse c.toUpper = some m) :
    leadingSilence (send_character u c) = 0 := by
  obtain ⟨hne, hdd⟩ := good_of_mem (lookupMorse_mem h2) h1
  rw [send_character_of_some u c m h1 h2]
  unfold leadingSilence
  cases hd : m.data with
  | nil => exact absurd hd hne
  | cons s rest =>
    simp only [silenceTo, hd]
    exact silenceTo_symbols_head u s rest (hdd s (by rw [hd]; simp)) _

/-- C1: for two consecutive supported letters/digits within a word, the
silence between the end of the last pulse of the first letter and the start
of the first pulse of the second is exactly `LETTER_SPACE` (3 units) and not
`LETTER_SPACE + SYMBOL_SPACE`: each pulse appends one `SYMBOL_SPACE` of
silence and `send_character` appends `LETTER_SPACE - SYMBOL_SPACE` after the
symbol loop. -/
theorem c1_inter_letter_silence (u : ℚ) (c₁ c₂ : Char) (m₁ m₂ : String)
    (hu : 0 < u)
    (h1 : c₁.toUpper ≠ ' ') (hm1 : lookupMorse c₁.toUpper = some m₁)
    (h2 : c₂.toUpper ≠ ' ') (hm2 : lookupMorse c₂.toUpper = some m₂) :
    trailingSilence (send_character u c₁) +
        leadingSilence (send_character u c₂) = LETTER_SPACE u ∧
      trailingSilence (send_character u c₁) +
        leadingSilence (send_character u c₂)
        ≠ LETTER_SPACE u + SYMBOL_SPACE u := by
  rw [trailingSilence_send_character u c₁ m₁ h1 hm1,
    leadingSilence_send_character u c₂ m₂ h2 hm2]
  constructor
  · ring
  · unfold LETTER_SPACE SYMBOL_SPACE DOT
    intro hcon
    linarith

/-- Witness for C1 at `u = 1`, letters `A` and `B`. -/
theorem c1_witness :
    (0:ℚ) < 1 ∧ ('A'.toUpper ≠ ' ') ∧ lookupMorse 'A'.toUpper = some ".-" ∧
      ('B'.toUpper ≠ ' ') ∧ lookupMorse 'B'.toUpper = some "-..." ∧
      (trailingSilence (send_character 1 'A') +
          leadingSilence (send_character 1 'B') = LETTER_SPACE 1 ∧
        trailingSilence (send_character 1 'A') +
          leadingSilence (send_character 1 'B')
          ≠ LETTER_SPACE 1 + SYMBOL_SPACE 1) :=
  ⟨by norm_num, by decide, by decide, by decide, by decide,
    c1_inter_letter_silence 1 'A' 'B' ".-" "-..." (by norm_num)
      (by decide) (by decide) (by decide) (by decide)⟩

/-- C2: across a word boundary (a space between two supported characters),
the silence between the last pulse before the space and the first pulse
after it is exactly `WORD_SPACE` (7 units): the space branch sleeps
`WORD_SPACE - LETTER_SPACE` on top of the `LETTER_SPACE` already emitted
after the previous character, and the space emits no pulses. -/
theorem c2_word_boundary_silence (u : ℚ) (c₁ c₂ : Char) (m₁ m₂ : String)
    (h1 : c₁.toUpper ≠ ' ') (hm1 : lookupMorse c₁.toUpper = some m₁)
    (h2 : c₂.toUpper ≠ ' ') (hm2 : lookupMorse c₂.toUpper = some m₂) :
    trailingSilence (send_character u c₁ ++ send_character u ' ') +
        leadingSilence (send_character u c₂) = WORD_SPACE u ∧
      pulseCount (send_character u ' ') = 0 := by
  constructor
  · rw [leadingSilence_send_character u c₂ m₂ h2 hm2]
    rw [send_character_of_space u ' ' (by decide)]
    unfold trailingSilence
    rw [List.reverse_append]
    have hrev : ([Ev.sleep (WORD_SPACE u - LETTER_SPACE u)]).reverse
        = [Ev.sleep (WORD_SPACE u - LETTER_SPACE u)] := rfl
    rw [hrev, List.singleton_append]
    have hstep : silenceTo (Ev.sleep (WORD_SPACE u - LETTER_SPACE u) ::
        (send_character u c₁).reverse)
        = WORD_SPACE u - LETTER_SPACE u +
          silenceTo ((send_character u c₁).reverse) := rfl
    rw [hstep]
    have htr := trailingSilence_send_character u c₁ m₁ h1 hm1
    unfold trailingSilence at htr
    rw [htr]
    unfold WORD_SPACE LETTER_SPACE DOT
    ring
  · rw [send_character_of_space u ' ' (by decide)]
    rfl

/-- Witness for C2 at `u = 1`, letters `A` and `B` around a space. -/
theorem c2_witness :
    ('A'.toUpper ≠ ' ') ∧ lookupMorse 'A'.toUpper = some ".-" ∧
      ('B'.toUpper ≠ ' ') ∧ lookupMorse 'B'.toUpper = some "-..." ∧
      (trailingSilence (send_character 1 'A' ++ send_character 1 ' ') +
          leadingSilence (send_character 1 'B') = WORD_SPACE 1 ∧
        pulseCount (send_character 1 ' ') = 0) :=
  ⟨by decide, by decide, by decide, by decide,
    c2_word_boundary_silence 1 'A' 'B' ".-" "-..."
      (by decide) (by decide) (by decide) (by decide)⟩

/-- C8: the timing constants satisfy the Morse ratios over the base unit:
`DASH = 3·DOT`, `SYMBOL_SPACE = DOT`, `LETTER_SPACE = 3·SYMBOL_SPACE`,
`WORD_SPACE = 7·SYMBOL_SPACE`; `send_dot` holds the line high for exactly
one unit and `send_dash` for exactly three units, for any unit `u > 0`. -/
theorem c8_timing_ratios (u : ℚ) (hu : 0 < u) :
    DASH u = 3 * DOT u ∧ SYMBOL_SPACE u = DOT u ∧
      LETTER_SPACE u = 3 * SYMBOL_SPACE u ∧
      WORD_SPACE u = 7 * SYMBOL_SPACE u ∧
      highTime false (send_dot u) = DOT u ∧
      highTime false (send_dash u) = 3 * DOT u := by
  refine ⟨?_, rfl, ?_, ?_, ?_, ?_⟩ <;>
    simp [DASH, DOT, SYMBOL_SPACE, LETTER_SPACE, WORD_SPACE, highTime,
      send_dot, send_dash] <;> ring

/-- Witness for C8 at `u = 1`. -/
theorem c8_witness :
    (0:ℚ) < 1 ∧
      (DASH 1 = 3 * DOT 1 ∧ SYMBOL_SPACE 1 = DOT 1 ∧
        LETTER_SPACE 1 = 3 * SYMBOL_SPACE 1 ∧
        WORD_SPACE 1 = 7 * SYMBOL_SPACE 1 ∧
        highTime false (send_dot 1) = DOT 1 ∧
        highTime false (send_dash 1) = 3 * DOT 1) :=
  ⟨by norm_num, c8_timing_ratios 1 (by norm_num)⟩

/-- C3: `run` with 3 repetitions of `"SOS"` produces exactly 3 full passes
of the symbol sequence dot-dot-dot, dash-dash-dash, dot-dot-dot; each pass
contains 3+3+3 = 9 pulses and the run as a whole 3 × 9 = 27. -/
theorem c3_sos_three_repetitions (u : ℚ) :
    (run u 3 "SOS").trace
        = headerPrints 3 "SOS" ++
          (setup_gpio ++
            (send_message u "SOS" ++
              (send_message u "SOS" ++ (send_message u "SOS" ++ []))) ++
            [.printed "Transmission complete!"]) ++ cleanup_gpio ∧
      printedTokens (send_message u "SOS") = ["...", "---", "...", "\n"] ∧
      pulseCount (send_message u "SOS") = 9 ∧
      pulseCount ((run u 3 "SOS").trace) = 3 * 9 := by
  refine ⟨?_, ?_, ?_, ?_⟩ <;> rfl

lemma toUpper_eq_of_unsupported {c : Char} (h : supportedChar c = false) :
    c.toUpper = c := by
  simp only [Char.toUpper]
  rw [if_neg]
  intro hcon
  obtain ⟨hc1, hc2⟩ := hcon
  simp [supportedChar] at h
  omega

lemma ne_space_of_unsupported {c : Char} (h : supportedChar c = false) :
    c ≠ ' ' := by
  intro hc
  subst hc
  rw [show supportedChar ' ' = true from rfl] at h
  exact Bool.noConfusion h

lemma lookupMorse_eq_none_of_unsupported {c : Char}
    (h : supportedChar c = false) :
    lookupMorse c = none := by
  unfold lookupMorse
  cases hf : MORSE_CODE.find? (fun p => p.1 == c) with
  | none => rfl
  | some p =>
    have hp := List.find?_some hf
    have hmem : p ∈ MORSE_CODE := List.mem_of_find?_eq_some hf
    have h1 : p.1 = c := by simpa using hp
    have hsupp := List.all_eq_true.mp morse_table_keys_supported p hmem
    rw [h1] at hsupp
    rw [hsupp] at h
    exact Bool.noConfusion h

lemma py_upper_ascii {c : Char} (h : c.toNat < 128) :
    py_upper c = c.toUpper := by
  unfold py_upper
  simp only [Char.toUpper]
  by_cases hr : c.toNat ≥ 97 ∧ c.toNat ≤ 122
  · rw [if_pos hr, if_pos hr]
  · rw [if_neg hr, if_neg hr]
    have h1 : c ≠ 'ı' := by
      intro hc
      subst hc
      exact absurd h (by decide)
    have h2 : c ≠ 'ſ' := by
      intro hc
      subst hc
      exact absurd h (by decide)
    rw [if_neg h1, if_neg h2]

lemma send_character_py_eq_ascii (u : ℚ) {c : Char} (h : c.toNat < 128) :
    send_character_py u c = send_character u c := by
  simp only [send_character_py, send_character, py_upper_ascii h]

/-- C4 counterexample: `ſ` (U+017F, long s) lies outside the supported set
A to Z, a to z, 0 to 9 and space, yet `str.upper()` maps it to `S`, so the
program prints `...` and emits three pulses for it rather than doing
nothing. -/
theorem c4_counterexample :
    supportedChar 'ſ' = false ∧
      send_character_py 1 'ſ' ≠ [] ∧
      printedTokens (send_character_py 1 'ſ') = ["..."] ∧
      pulseCount (send_character_py 1 'ſ') = 3 :=
  ⟨by decide, by decide, by decide, by decide⟩

/-- C4 (amended): an ASCII character outside the supported set, A to Z,
a to z, 0 to 9 and space, makes `send_character` perform no action at all:
the trace is empty (no pulse, no sleep, no print, no error).  Outside ASCII
the guarantee fails, since `str.upper()` maps `ſ` to `S` and `ı` to `I`. -/
theorem c4_ascii_unsupported_no_action (u : ℚ) (c : Char)
    (hascii : c.toNat < 128) (h : supportedChar c = false) :
    send_character_py u c = [] := by
  rw [send_character_py_eq_ascii u hascii]
  have hup := toUpper_eq_of_unsupported h
  apply send_character_of_none
  · rw [hup]
    exact ne_space_of_unsupported h
  · rw [hup]
    exact lookupMorse_eq_none_of_unsupported h

/-- Witness for amended C4 at `u = 1` with the unsupported ASCII
character `!`. -/
theorem c4_amended_witness :
    ('!'.toNat < 128) ∧ supportedChar '!' = false ∧
      send_character_py 1 '!' = [] :=
  ⟨by decide, by decide,
    c4_ascii_unsupported_no_action 1 '!' (by decide) (by decide)⟩

lemma ascii_toLower_toUpper :
    ∀ n : Fin 128,
      ((Char.ofNat n.val).toLower).toUpper = (Char.ofNat n.val).toUpper := by
  decide

/-- C5: encoding is case-insensitive: a supported character and its
lowercase form produce identical traces (same pulses, same gaps, same
printed Morse string), because the character is uppercased before any
branch. -/
theorem c5_case_insensitive (u : ℚ) (c : Char)
    (h : supportedChar c = true) :
    send_character u c = send_character u c.toLower := by
  have hlt : c.toNat < 128 := by
    simp [supportedChar] at h
    omega
  have hup : (c.toLower).toUpper = c.toUpper := by
    have hkey := ascii_toLower_toUpper ⟨c.toNat, hlt⟩
    simpa [Char.ofNat_toNat] using hkey
  simp only [send_character]
  rw [hup]

/-- Witness for C5 at `u = 1` with the letter `A`. -/
theorem c5_witness :
    supportedChar 'A' = true ∧ 'A'.toLower = 'a' ∧
      send_character 1 'A' = send_character 1 'A'.toLower :=
  ⟨by decide, by decide, c5_case_insensitive 1 'A' (by decide)⟩

/-- C6: with repetitions < 1 the program prints the range error, exits with
code 1, and performs no GPIO operation: the check precedes `setup_gpio` and
every GPIO call. -/
theorem c6_repetitions_range_check (u : ℚ) (r : Int) (msg : String)
    (h : r < 1) :
    (run u r msg).exitCode = 1 ∧
      (run u r msg).trace
        = [.printed "Error: Number of repetitions must be at least 1"] ∧
      (run u r msg).trace.all (fun e => !(isGpio e)) = true := by
  unfold run
  rw [if_pos h]
  exact ⟨rfl, rfl, rfl⟩

/-- Witness for C6 at `u = 1`, repetitions 0, message `A`. -/
theorem c6_witness :
    ((0:Int) < 1) ∧
      ((run 1 0 "A").exitCode = 1 ∧
        (run 1 0 "A").trace
          = [.printed "Error: Number of repetitions must be at least 1"] ∧
        (run 1 0 "A").trace.all (fun e => !(isGpio e)) = true) :=
  ⟨by decide, c6_repetitions_range_check 1 0 "A" (by decide)⟩

/-- C7: a KeyboardInterrupt arriving at any point `k` inside the try block
is caught at the run boundary: the exit code is 0, the trace ends with the
interruption notice followed by the cleanup events, the post-interrupt
suffix deasserts the line exactly once, and the final line level is low no
matter what level the interrupt left it at. -/
theorem c7_interrupt_cleanup (u : ℚ) (r : Int) (msg : String) (k : Nat)
    (b : Bool) (h : 1 ≤ r) :
    (run_interrupted u r msg k).exitCode = 0 ∧
      (run_interrupted u r msg k).trace
        = (headerPrints r msg ++ (tryBody u r msg).take k) ++
          (Ev.printed "\nTransmission interrupted by user" :: cleanup_gpio) ∧
      (Ev.printed "\nTransmission interrupted by user" ::
          cleanup_gpio).countP isDeassert = 1 ∧
      lineAfter b ((run_interrupted u r msg k).trace) = false := by
  have hr : ¬ r < 1 := by omega
  unfold run_interrupted
  rw [if_neg hr]
  refine ⟨rfl, by simp, rfl, ?_⟩
  unfold lineAfter
  rw [List.foldl_append]
  rfl

/-- Witness for C7 at `u = 1`, one repetition of `A`, interrupt at `k = 0`,
line left high. -/
theorem c7_witness :
    ((1:Int) ≤ 1) ∧
      ((run_interrupted 1 1 "A" 0).exitCode = 0 ∧
        (run_interrupted 1 1 "A" 0).trace
          = (headerPrints 1 "A" ++ (tryBody 1 1 "A").take 0) ++
            (Ev.printed "\nTransmission interrupted by user" :: cleanup_gpio) ∧
        (Ev.printed "\nTransmission interrupted by user" ::
            cleanup_gpio).countP isDeassert = 1 ∧
        lineAfter true ((run_interrupted 1 1 "A" 0).trace) = false) :=
  ⟨by decide, c7_interrupt_cleanup 1 1 "A" 0 true (by decide)⟩

lemma symbols_all_goodPrint (u : ℚ) (l : List Char) :
    (l.flatMap (send_symbol u)).all goodPrint = true := by
  induction l with
  | nil => rfl
  | cons s rest ih =>
    rw [List.flatMap_cons, List.all_append, ih, Bool.and_true]
    unfold send_symbol
    by_cases h1 : s = '.'
    · rw [if_pos h1]
      rfl
    · rw [if_neg h1]
      by_cases h2 : s = '-'
      · rw [if_pos h2]
        rfl
      · rw [if_neg h2]
        rfl

/-- C9: the table entry `/` for the space character is unreachable: every
printed token of `send_character` is a nonempty dot/dash string distinct
from `/`, and the space branch of `send_character` prints nothing at all
(it returns before the dictionary lookup). -/
theorem c9_slash_unreachable (u : ℚ) (c : Char) :
    (send_character u c).all goodPrint = true ∧
      (send_character u ' ').all (fun e => !(isPrint e)) = true := by
  constructor
  · by_cases hsp : c.toUpper = ' '
    · rw [send_character_of_space u c hsp]
      rfl
    · cases hm : lookupMorse c.toUpper with
      | none =>
        rw [send_character_of_none u c hsp hm]
        rfl
      | some m =>
        rw [send_character_of_some u c m hsp hm]
        obtain ⟨hne, hdd⟩ := good_of_mem (lookupMorse_mem hm) hsp
        have hslash : m ≠ "/" := by
          intro he
          subst he
          rcases hdd '/' (by decide) with hx | hx <;> exact absurd hx (by decide)
        have h1 : goodPrint (Ev.printed m) = true := by
          simp only [goodPrint, Bool.and_eq_true, Bool.not_eq_true']
          constructor
          · exact beq_eq_false_iff_ne.mpr hslash
          · rw [List.all_eq_true]
            intro s hs
            rcases hdd s hs with hx | hx <;> subst hx <;> rfl
        rw [List.all_cons, h1, Bool.true_and, List.all_append,
          symbols_all_goodPrint u m.data, Bool.true_and]
        rfl
  · rw [send_character_of_space u ' ' (by decide)]
    rfl

lemma lineAfter_append (b : Bool) (A B : List Ev) :
    lineAfter b (A ++ B) = lineAfter (lineAfter b A) B := by
  unfold lineAfter
  rw [List.foldl_append]

lemma lineAfter_symbol_false (u : ℚ) (s : Char) :
    lineAfter false (send_symbol u s) = false := by
  unfold send_symbol
  by_cases h1 : s = '.'
  · rw [if_pos h1]
    rfl
  · rw [if_neg h1]
    by_cases h2 : s = '-'
    · rw [if_pos h2]
      rfl
    · rw [if_neg h2]
      rfl

lemma lineAfter_symbols_false (u : ℚ) (l : List Char) :
    lineAfter false (l.flatMap (send_symbol u)) = false := by
  induction l with
  | nil => rfl
  | cons s rest ih =>
    rw [List.flatMap_cons, lineAfter_append, lineAfter_symbol_false]
    exact ih

lemma lineAfter_send_character_false (u : ℚ) (c : Char) :
    lineAfter false (send_character u c) = false := by
  by_cases hsp : c.toUpper = ' '
  · rw [send_character_of_space u c hsp]
    rfl
  · cases hm : lookupMorse c.toUpper with
    | none =>
      rw [send_character_of_none u c hsp hm]
      rfl
    | some m =>
      rw [send_character_of_some u c m hsp hm]
      have hstep : lineAfter false (Ev.printed m ::
          (m.data.flatMap (send_symbol u) ++
            [Ev.sleep (LETTER_SPACE u - SYMBOL_SPACE u)]))
          = lineAfter false (m.data.flatMap (send_symbol u) ++
              [Ev.sleep (LETTER_SPACE u - SYMBOL_SPACE u)]) := rfl
      rw [hstep, lineAfter_append, lineAfter_symbols_false]
      rfl

lemma lineAfter_send_message_false (u : ℚ) (msg : String) :
    lineAfter false (send_message u msg) = false := by
  unfold send_message
  rw [lineAfter_append]
  have hmsg : ∀ l : List Char,
      lineAfter false (l.flatMap (send_character u)) = false := by
    intro l
    induction l with
    | nil => rfl
    | cons c rest ih =>
      rw [List.flatMap_cons, lineAfter_append,
        lineAfter_send_character_false]
      exact ih
  rw [hmsg msg.data]
  rfl

/-- C10: the line is low whenever no pulse is in progress: `setup_gpio`
leaves the line low from any level, and starting from a low line every
`send_character` and every `send_message` completes with the line low. -/
theorem c10_line_low_on_completion (u : ℚ) (b : Bool) (c : Char)
    (msg : String) :
    lineAfter b setup_gpio = false ∧
      lineAfter false (send_character u c) = false ∧
      lineAfter false (send_message u msg) = false :=
  ⟨rfl, lineAfter_send_character_false u c, lineAfter_send_message_false u msg⟩

end MorseSend
